import Mathlib

/-!
Verification of the core of `ripwc` (src/src/main.rs): the byte-stream
counting engine, the fast path and the byte-metric fallback of
`process_file`, the `Counts::add` combine operation, the `append_counts`
formatter, and the per-task pipeline of `main`'s parallel collection.

Bytes are modelled as natural numbers (values 0..255 occur in real inputs;
the definitions are total on `Nat`).  Machine `usize` counters are modelled
as `Nat`: all counters only grow by small increments from 0, matching the
source, where overflow is not handled either.
-/

namespace Ripwc

/-- The five metric flags of `Args` (src/src/main.rs lines 15-24), in
source order.  The traversal / verbosity flags are carried separately where
needed. -/
structure Selector where
  bytes : Bool
  chars : Bool
  lines : Bool
  words : Bool
  max_line_length : Bool
deriving Repr, DecidableEq

/-- The `Counts` struct (src/src/main.rs lines 32-39), field order as in the
source: bytes, chars, words, lines, max_line_length. -/
structure Counts where
  bytes : Nat
  chars : Nat
  words : Nat
  lines : Nat
  max_line_length : Nat
deriving Repr, DecidableEq

/-- Model of `Counts::default()`: all counters zero. -/
def Counts.default : Counts := ⟨0, 0, 0, 0, 0⟩

/-- Model of `Counts::add` (src/src/main.rs lines 42-48): sum the four additive
fields, take the maximum of `max_line_length`.  The Rust method mutates
`self`; we return the updated value. -/
def Counts.add (self other : Counts) : Counts :=
  { bytes := self.bytes + other.bytes
    chars := self.chars + other.chars
    words := self.words + other.words
    lines := self.lines + other.lines
    max_line_length := max self.max_line_length other.max_line_length }

/-- The `IS_WHITESPACE` table (src/src/main.rs lines 51-58): true exactly
for space (32), tab (9), line feed (10) and carriage return (13). -/
def IS_WHITESPACE (b : Nat) : Bool :=
  b == 32 || b == 9 || b == 10 || b == 13

/-- The engine state inside `process_file`: the `Counts` accumulator
together with the two cross-chunk locals `in_word` (line 135) and
`current_line_length` (line 136), flattened into one structure. -/
structure EState where
  bytes : Nat
  chars : Nat
  words : Nat
  lines : Nat
  max_line_length : Nat
  in_word : Bool
  current_line_length : Nat
deriving Repr, DecidableEq

/-- State at line 138: `Counts::default()`, `in_word = false`,
`current_line_length = 0`. -/
def initState : EState := ⟨0, 0, 0, 0, 0, false, 0⟩

/-- Tail-loop bytes transition `if app.bytes { counts.bytes += 1 }` (lines 293-295). -/
def bytesStep (app : Selector) (st : EState) : EState :=
  if app.bytes then { st with bytes := st.bytes + 1 } else st

/-- Tail-loop chars transition (lines 296-298). -/
def charsStep (app : Selector) (byte : Nat) (st : EState) : EState :=
  if app.chars && byte != 0 then { st with chars := st.chars + 1 } else st

/-- Tail-loop lines transition, counting line-feed bytes (lines 299-301). -/
def linesStep (app : Selector) (byte : Nat) (st : EState) : EState :=
  if app.lines && byte == 10 then { st with lines := st.lines + 1 } else st

/-- The max-line-length transition for one byte (lines 302-309): on a line
feed fold `current_line_length` into the maximum and reset it, otherwise
lengthen the current line. -/
def mllStep (app : Selector) (byte : Nat) (st : EState) : EState :=
  if app.max_line_length then
    if byte == 10 then
      { st with max_line_length := max st.max_line_length st.current_line_length
                current_line_length := 0 }
    else
      { st with current_line_length := st.current_line_length + 1 }
  else st

/-- The word transition for one byte (lines 310-318): entering a word sets
`in_word`; leaving a word on whitespace clears it and counts the word. -/
def wordsStep (app : Selector) (byte : Nat) (st : EState) : EState :=
  if app.words then
    if !st.in_word && !IS_WHITESPACE byte then
      { st with in_word := true }
    else if st.in_word && IS_WHITESPACE byte then
      { st with in_word := false, words := st.words + 1 }
    else st
  else st

/-- One iteration of the tail loop (lines 291-320): the five metric
transitions for a single byte, in source order. -/
def stepByte (app : Selector) (st : EState) (byte : Nat) : EState :=
  wordsStep app byte (mllStep app byte (linesStep app byte
    (charsStep app byte (bytesStep app st))))

/-- Bytes block of the unrolled loop (lines 156-158): eight bytes at once. -/
def bytes8 (app : Selector) (st : EState) : EState :=
  if app.bytes then { st with bytes := st.bytes + 8 } else st

/-- One iteration of the 8-byte unrolled loop (lines 147-288): the bytes
block adds 8 at once, then the chars, lines, max-line-length and words
blocks each walk `b0..b7` in order.  The source hoists each `app.*` flag
test outside its block of eight transitions; the flag is loop-invariant, so
testing it per byte, as the per-byte step functions do, is the same
computation. -/
def step8 (app : Selector) (st : EState)
    (b0 b1 b2 b3 b4 b5 b6 b7 : Nat) : EState :=
  let st := bytes8 app st
  let st := charsStep app b7 (charsStep app b6 (charsStep app b5
    (charsStep app b4 (charsStep app b3 (charsStep app b2
    (charsStep app b1 (charsStep app b0 st)))))))
  let st := linesStep app b7 (linesStep app b6 (linesStep app b5
    (linesStep app b4 (linesStep app b3 (linesStep app b2
    (linesStep app b1 (linesStep app b0 st)))))))
  let st := mllStep app b7 (mllStep app b6 (mllStep app b5
    (mllStep app b4 (mllStep app b3 (mllStep app b2
    (mllStep app b1 (mllStep app b0 st)))))))
  wordsStep app b7 (wordsStep app b6 (wordsStep app b5
    (wordsStep app b4 (wordsStep app b3 (wordsStep app b2
    (wordsStep app b1 (wordsStep app b0 st)))))))

/-- The per-chunk body of the read loop (lines 143-321): run the 8-byte
unrolled loop while at least eight bytes remain (`i + 7 < bytes_read`),
then the one-byte-at-a-time tail loop on the rest. -/
def unrolledChunk (app : Selector) (st : EState) : List Nat → EState
  | b0 :: b1 :: b2 :: b3 :: b4 :: b5 :: b6 :: b7 :: rest =>
      unrolledChunk app (step8 app st b0 b1 b2 b3 b4 b5 b6 b7) rest
  | rest => rest.foldl (stepByte app) st

/-- End-of-stream flush (lines 323-329): count a still-open word, fold a
nonempty unterminated trailing line into the maximum, and read off the
`Counts`. -/
def finalize (app : Selector) (st : EState) : Counts :=
  let st := if app.words && st.in_word then { st with words := st.words + 1 } else st
  let st := if app.max_line_length && decide (0 < st.current_line_length) then
      { st with max_line_length := max st.max_line_length st.current_line_length }
    else st
  ⟨st.bytes, st.chars, st.words, st.lines, st.max_line_length⟩

/-- The counting engine on a chunked byte stream: fold the per-chunk body
over the chunks delivered by the read loop, then flush.  The chunk
partition is exactly what `reader.read` returns on each iteration. -/
def runEngine (app : Selector) (chunks : List (List Nat)) : Counts :=
  finalize app (chunks.foldl (unrolledChunk app) initState)

/-- The slow path of `process_file` on fully read contents: run the engine,
then the byte-metric fallback (lines 331-336): if bytes were requested and
the counted value is zero, substitute the metadata size when available. -/
def fullReadCounts (app : Selector) (data : List Nat) (metadata : Option Nat) : Counts :=
  let c := runEngine app [data]
  if app.bytes && c.bytes == 0 then
    match metadata with
    | some n => { c with bytes := n }
    | none => c
  else c

/-- Model of `process_file` (src/src/main.rs lines 122-338).  `contents = none`
models `File::open` (or a read) failing, which makes the whole call return
`Err`; the open happens before the fast path, so even the fast path needs a
readable file.  The fast path (lines 126-131) answers from metadata when
only bytes are requested; otherwise the contents are read and counted. -/
def process_file (app : Selector) (contents : Option (List Nat))
    (metadata : Option Nat) : Option Counts :=
  match contents with
  | none => none
  | some data =>
    if app.bytes && !app.lines && !app.words && !app.chars && !app.max_line_length then
      match metadata with
      | some n => some { Counts.default with bytes := n }
      | none => some (fullReadCounts app data metadata)
    else
      some (fullReadCounts app data metadata)

/-- Model of `append_counts` (src/src/main.rs lines 342-358): append to `result` one
labeled field per metric that is both selected and nonzero, in the fixed
order lines, words, chars, bytes, max line length. -/
def append_counts (result : String) (counts : Counts) (app : Selector) : String :=
  let result := if app.lines && decide (0 < counts.lines) then
      result ++ " lines: " ++ toString counts.lines else result
  let result := if app.words && decide (0 < counts.words) then
      result ++ " words: " ++ toString counts.words else result
  let result := if app.chars && decide (0 < counts.chars) then
      result ++ " chars: " ++ toString counts.chars else result
  let result := if app.bytes && decide (0 < counts.bytes) then
      result ++ " bytes: " ++ toString counts.bytes else result
  if app.max_line_length && decide (0 < counts.max_line_length) then
    result ++ " max line length: " ++ toString counts.max_line_length else result

/-- One entry of the `paths` vector of `main` (lines 77-82): a path, the
file's readable contents (`none` when `File::open` or a read fails), and
the optional size metadata (`none` when `std::fs::metadata` failed). -/
structure FileTask where
  path : String
  contents : Option (List Nat)
  metadata : Option Nat
deriving Repr, DecidableEq

/-- The fall-through path of the `filter_map` closure of `main`
(lines 97-103): in verbose mode a diagnostic line is written to the error
stream first, and `.ok()?` drops the task if that write fails
(`stderrOk = false`); then the file is processed and formatted. -/
def processLarge (app : Selector) (verbose stderrOk : Bool) (t : FileTask) :
    Option (Counts × String) :=
  if verbose && !stderrOk then none
  else
    match process_file app t.contents t.metadata with
    | none => none
    | some counts =>
      some (counts, (append_counts "" counts app).trim ++ " " ++ t.path)

/-- The whole `filter_map` closure of `main` (lines 85-104): tasks with
known size under 512 KiB take the batched small-file branch (lines 87-96),
everything else falls through to `processLarge`. -/
def processTask (app : Selector) (verbose stderrOk : Bool) (t : FileTask) :
    Option (Counts × String) :=
  match t.metadata with
  | some n =>
    if n < 512 * 1024 then
      match process_file app t.contents t.metadata with
      | none => none
      | some result =>
        let counts := Counts.add Counts.default result
        some (counts, (append_counts "" counts app).trim ++ " " ++ t.path)
    else processLarge app verbose stderrOk t
  | none => processLarge app verbose stderrOk t

/-- The ordered result list collected by `main` (lines 85-104), in the
sequential order-preserving semantics that rayon's indexed
`par_iter().filter_map().collect()` guarantees. -/
def runResults (app : Selector) (verbose stderrOk : Bool)
    (tasks : List FileTask) : List (Counts × String) :=
  tasks.filterMap (processTask app verbose stderrOk)

/-- The aggregation loop of `main` (lines 106-110): fold every collected
`Counts` into the running total with `Counts::add`. -/
def totalOf (results : List (Counts × String)) : Counts :=
  results.foldl (fun acc r => acc.add r.1) Counts.default

/-- Modelled from the spec: the parallel result collection itself (rayon's
`par_iter().filter_map().collect()`) has no source in src/; §9 of the spec
describes it as indexed task submission into a pre-sized results buffer
written by index.  `sched` is the order in which workers complete the
indexed tasks; each completion writes its task's optional result into its
own slot, and the output reads the buffer in index order, dropping the
slots whose task produced nothing. -/
def collectWithSchedule (app : Selector) (verbose stderrOk : Bool)
    (tasks : List FileTask) (sched : List Nat) : List (Counts × String) :=
  (sched.foldl
    (fun buf i => buf.set i ((tasks.get? i).bind (processTask app verbose stderrOk)))
    (List.replicate tasks.length (none : Option (Counts × String)))).filterMap id

/-!  Specification-side definitions, written from the claims' words, to be
compared with the engine. -/

/-- Number of maximal runs of non-whitespace bytes, counted at the byte
that ends each run (its trailing whitespace, or the end of the list). -/
def countRuns : List Nat → Nat
  | [] => 0
  | [b] => if IS_WHITESPACE b then 0 else 1
  | b1 :: b2 :: rest =>
      (if !IS_WHITESPACE b1 && IS_WHITESPACE b2 then 1 else 0) + countRuns (b2 :: rest)

/-- Lengths of the runs of non-line-feed bytes between line feeds, in
order, including the (possibly empty) unterminated trailing run. -/
def lineLengths : List Nat → List Nat
  | [] => [0]
  | b :: r =>
      if b == 10 then 0 :: lineLengths r
      else
        match lineLengths r with
        | [] => [1]
        | x :: xs => (x + 1) :: xs

/-- The maximum number of non-line-feed bytes between line feeds (the
unterminated trailing line included). -/
def maxLineSpec (l : List Nat) : Nat :=
  (lineLengths l).foldr max 0

/-- The labeled fields that the formatting contract calls for: exactly the
metrics that are both selected and nonzero, in the fixed order lines,
words, chars, bytes, max-line-length. -/
def metricFields (app : Selector) (counts : Counts) : List String :=
  (if app.lines && decide (0 < counts.lines) then
    [" lines: " ++ toString counts.lines] else []) ++
  (if app.words && decide (0 < counts.words) then
    [" words: " ++ toString counts.words] else []) ++
  (if app.chars && decide (0 < counts.chars) then
    [" chars: " ++ toString counts.chars] else []) ++
  (if app.bytes && decide (0 < counts.bytes) then
    [" bytes: " ++ toString counts.bytes] else []) ++
  (if app.max_line_length && decide (0 < counts.max_line_length) then
    [" max line length: " ++ toString counts.max_line_length] else [])

/-!  Pure restrictions of the engine's state machine to single metrics,
used as stepping stones between the full fold and the specifications. -/

/-- The word machine alone: from a given `in_word` flag, the final flag and
the number of words counted while scanning the list. -/
def wordMachine : Bool → List Nat → Bool × Nat
  | iw, [] => (iw, 0)
  | iw, b :: r =>
      if !iw && !IS_WHITESPACE b then wordMachine true r
      else if iw && IS_WHITESPACE b then
        let p := wordMachine false r
        (p.1, p.2 + 1)
      else wordMachine iw r

/-- The line-length machine alone: from given maximum and current-length
accumulators, the final (maximum, current length) pair. -/
def mllFold : Nat → Nat → List Nat → Nat × Nat
  | mll, cll, [] => (mll, cll)
  | mll, cll, b :: r =>
      if b == 10 then mllFold (max mll cll) 0 r else mllFold mll (cll + 1) r

/-- Prepend a carried-over partial line length to the first entry of a
segment-length list. -/
def addFirst (cll : Nat) : List Nat → List Nat
  | [] => [cll]
  | x :: xs => (cll + x) :: xs

/-- The selector with all five metrics enabled. -/
def allFlags : Selector := ⟨true, true, true, true, true⟩

/-!  Normal forms of the per-byte transitions: each step written as a
single structure literal, so that projections through compositions
reduce. -/

attribute [ext] EState Counts

theorem bytesStep_eq (app : Selector) (st : EState) :
    bytesStep app st =
      { st with bytes := if app.bytes then st.bytes + 1 else st.bytes } := by
  unfold bytesStep; split <;> rfl

theorem charsStep_eq (app : Selector) (b : Nat) (st : EState) :
    charsStep app b st =
      { st with chars := if app.chars && b != 0 then st.chars + 1 else st.chars } := by
  unfold charsStep; split <;> rfl

theorem linesStep_eq (app : Selector) (b : Nat) (st : EState) :
    linesStep app b st =
      { st with lines := if app.lines && b == 10 then st.lines + 1 else st.lines } := by
  unfold linesStep; split <;> rfl

theorem mllStep_eq (app : Selector) (b : Nat) (st : EState) :
    mllStep app b st =
      { st with
        max_line_length := if app.max_line_length then
            (if b == 10 then max st.max_line_length st.current_line_length
             else st.max_line_length)
          else st.max_line_length
        current_line_length := if app.max_line_length then
            (if b == 10 then 0 else st.current_line_length + 1)
          else st.current_line_length } := by
  unfold mllStep
  by_cases h1 : app.max_line_length = true <;> by_cases h2 : (b == 10) = true <;>
    simp [h1, h2]

theorem wordsStep_eq (app : Selector) (b : Nat) (st : EState) :
    wordsStep app b st =
      { st with
        words := if app.words then
            (if !st.in_word && !IS_WHITESPACE b then st.words
             else if st.in_word && IS_WHITESPACE b then st.words + 1
             else st.words)
          else st.words
        in_word := if app.words then
            (if !st.in_word && !IS_WHITESPACE b then true
             else if st.in_word && IS_WHITESPACE b then false
             else st.in_word)
          else st.in_word } := by
  unfold wordsStep
  by_cases h1 : app.words = true <;>
    by_cases h2 : (!st.in_word && !IS_WHITESPACE b) = true <;>
    by_cases h3 : (st.in_word && IS_WHITESPACE b) = true <;>
    simp [h1, h2, h3]

/-- Characterization of the one-byte-at-a-time scan: each field of the
state after folding the tail-loop body over a byte list, in terms of the
single-metric machines. -/
theorem foldl_stepByte_eq (app : Selector) (l : List Nat) : ∀ st : EState,
    l.foldl (stepByte app) st =
      { bytes := if app.bytes then st.bytes + l.length else st.bytes
        chars := if app.chars then st.chars + l.countP (fun b => b != 0) else st.chars
        words := if app.words then st.words + (wordMachine st.in_word l).2 else st.words
        lines := if app.lines then st.lines + l.countP (fun b => b == 10) else st.lines
        max_line_length := if app.max_line_length then
            (mllFold st.max_line_length st.current_line_length l).1
          else st.max_line_length
        in_word := if app.words then (wordMachine st.in_word l).1 else st.in_word
        current_line_length := if app.max_line_length then
            (mllFold st.max_line_length st.current_line_length l).2
          else st.current_line_length } := by
  induction l with
  | nil => intro st; simp [wordMachine, mllFold]
  | cons b l ih =>
    intro st
    rw [List.foldl_cons, ih]
    simp only [stepByte, bytesStep_eq, charsStep_eq, linesStep_eq, mllStep_eq, wordsStep_eq]
    ext
    · by_cases hb : app.bytes = true <;> simp [hb] <;> omega
    · by_cases hc : app.chars = true <;> by_cases h0 : (b != 0) = true <;>
        simp [hc, h0, List.countP_cons] <;> omega
    · by_cases hw : app.words = true <;>
        by_cases h2 : (!st.in_word && !IS_WHITESPACE b) = true <;>
        by_cases h3 : (st.in_word && IS_WHITESPACE b) = true <;>
        simp [hw, h2, h3, wordMachine] <;> omega
    · by_cases hl : app.lines = true <;> by_cases h0 : (b == 10) = true <;>
        simp [hl, h0, List.countP_cons] <;> omega
    · by_cases hm : app.max_line_length = true <;> by_cases h0 : (b == 10) = true <;>
        simp [hm, h0, mllFold]
    · by_cases hw : app.words = true <;>
        by_cases h2 : (!st.in_word && !IS_WHITESPACE b) = true <;>
        by_cases h3 : (st.in_word && IS_WHITESPACE b) = true <;>
        simp [hw, h2, h3, wordMachine]
    · by_cases hm : app.max_line_length = true <;> by_cases h0 : (b == 10) = true <;>
        simp [hm, h0, mllFold]

/-!  The four per-metric blocks of the unrolled loop, as folds of the
single-byte transitions over the group of eight bytes, and their
characterizations. -/

def charsBlock (app : Selector) (l : List Nat) (st : EState) : EState :=
  l.foldl (fun s b => charsStep app b s) st

def linesBlock (app : Selector) (l : List Nat) (st : EState) : EState :=
  l.foldl (fun s b => linesStep app b s) st

def mllBlock (app : Selector) (l : List Nat) (st : EState) : EState :=
  l.foldl (fun s b => mllStep app b s) st

def wordsBlock (app : Selector) (l : List Nat) (st : EState) : EState :=
  l.foldl (fun s b => wordsStep app b s) st

theorem bytes8_eq (app : Selector) (st : EState) :
    bytes8 app st =
      { st with bytes := if app.bytes then st.bytes + 8 else st.bytes } := by
  unfold bytes8; split <;> rfl

theorem charsBlock_eq (app : Selector) (l : List Nat) : ∀ st : EState,
    charsBlock app l st =
      { st with chars := if app.chars then st.chars + l.countP (fun b => b != 0) else st.chars } := by
  induction l with
  | nil => intro st; simp [charsBlock]
  | cons b l ih =>
    intro st
    rw [show charsBlock app (b :: l) st = charsBlock app l (charsStep app b st) from rfl,
      ih, charsStep_eq]
    ext <;> by_cases hc : app.chars = true <;> by_cases h0 : (b != 0) = true <;>
      simp [hc, h0, List.countP_cons] <;> omega

theorem linesBlock_eq (app : Selector) (l : List Nat) : ∀ st : EState,
    linesBlock app l st =
      { st with lines := if app.lines then st.lines + l.countP (fun b => b == 10) else st.lines } := by
  induction l with
  | nil => intro st; simp [linesBlock]
  | cons b l ih =>
    intro st
    rw [show linesBlock app (b :: l) st = linesBlock app l (linesStep app b st) from rfl,
      ih, linesStep_eq]
    ext <;> by_cases hc : app.lines = true <;> by_cases h0 : (b == 10) = true <;>
      simp [hc, h0, List.countP_cons] <;> omega

theorem mllBlock_eq (app : Selector) (l : List Nat) : ∀ st : EState,
    mllBlock app l st =
      { st with
        max_line_length := if app.max_line_length then
            (mllFold st.max_line_length st.current_line_length l).1
          else st.max_line_length
        current_line_length := if app.max_line_length then
            (mllFold st.max_line_length st.current_line_length l).2
          else st.current_line_length } := by
  induction l with
  | nil => intro st; simp [mllBlock, mllFold]
  | cons b l ih =>
    intro st
    rw [show mllBlock app (b :: l) st = mllBlock app l (mllStep app b st) from rfl,
      ih, mllStep_eq]
    ext <;> by_cases hm : app.max_line_length = true <;> by_cases h0 : (b == 10) = true <;>
      simp [hm, h0, mllFold]

theorem wordsBlock_eq (app : Selector) (l : List Nat) : ∀ st : EState,
    wordsBlock app l st =
      { st with
        words := if app.words then st.words + (wordMachine st.in_word l).2 else st.words
        in_word := if app.words then (wordMachine st.in_word l).1 else st.in_word } := by
  induction l with
  | nil => intro st; simp [wordsBlock, wordMachine]
  | cons b l ih =>
    intro st
    rw [show wordsBlock app (b :: l) st = wordsBlock app l (wordsStep app b st) from rfl,
      ih, wordsStep_eq]
    ext <;> by_cases hw : app.words = true <;>
      by_cases h2 : (!st.in_word && !IS_WHITESPACE b) = true <;>
      by_cases h3 : (st.in_word && IS_WHITESPACE b) = true <;>
      simp [hw, h2, h3, wordMachine] <;> omega

/-- The unrolled group of eight is the literal composition of the four
blocks over the group, after the one-shot bytes increment. -/
theorem step8_blocks (app : Selector) (st : EState) (b0 b1 b2 b3 b4 b5 b6 b7 : Nat) :
    step8 app st b0 b1 b2 b3 b4 b5 b6 b7 =
      wordsBlock app [b0, b1, b2, b3, b4, b5, b6, b7]
        (mllBlock app [b0, b1, b2, b3, b4, b5, b6, b7]
          (linesBlock app [b0, b1, b2, b3, b4, b5, b6, b7]
            (charsBlock app [b0, b1, b2, b3, b4, b5, b6, b7] (bytes8 app st)))) := rfl

/-- One unrolled group of eight bytes computes exactly what eight
iterations of the tail loop compute. -/
theorem step8_eq_foldl (app : Selector) (st : EState) (b0 b1 b2 b3 b4 b5 b6 b7 : Nat) :
    step8 app st b0 b1 b2 b3 b4 b5 b6 b7 =
      [b0, b1, b2, b3, b4, b5, b6, b7].foldl (stepByte app) st := by
  rw [step8_blocks, charsBlock_eq, linesBlock_eq, mllBlock_eq, wordsBlock_eq,
    bytes8_eq, foldl_stepByte_eq]
  ext <;> simp

/-- The per-chunk body (unrolled groups of eight plus the tail loop) equals
the plain one-byte-at-a-time scan of the whole chunk. -/
theorem unrolledChunk_eq (app : Selector) (st : EState) (l : List Nat) :
    unrolledChunk app st l = l.foldl (stepByte app) st := by
  induction st, l using unrolledChunk.induct app with
  | case1 st b0 b1 b2 b3 b4 b5 b6 b7 rest ih =>
    rw [show unrolledChunk app st (b0 :: b1 :: b2 :: b3 :: b4 :: b5 :: b6 :: b7 :: rest) =
        unrolledChunk app (step8 app st b0 b1 b2 b3 b4 b5 b6 b7) rest from rfl,
      ih, step8_eq_foldl]
    rfl
  | case2 st rest h =>
    rw [unrolledChunk.eq_def]
    split
    · exact ((h _ _ _ _ _ _ _ _ _ rfl)).elim
    · rfl

/-- Folding the per-chunk body over a chunk list scans exactly the
concatenation of the chunks, one byte at a time: `in_word` and
`current_line_length` carry across chunk boundaries unchanged. -/
theorem foldChunks_eq_join (app : Selector) (css : List (List Nat)) : ∀ st : EState,
    css.foldl (unrolledChunk app) st = css.flatten.foldl (stepByte app) st := by
  induction css with
  | nil => intro st; rfl
  | cons c css ih =>
    intro st
    rw [List.foldl_cons, ih, List.flatten_cons, List.foldl_append, unrolledChunk_eq]

/-- The end-of-stream flush, field by field: `max st.max_line_length 0`
equals `st.max_line_length`, so the `0 < current_line_length` guard can be
folded into an unconditional maximum. -/
theorem finalize_fields (app : Selector) (st : EState) :
    finalize app st =
      { bytes := st.bytes
        chars := st.chars
        words := if app.words && st.in_word then st.words + 1 else st.words
        lines := st.lines
        max_line_length := if app.max_line_length then
            max st.max_line_length st.current_line_length
          else st.max_line_length } := by
  unfold finalize
  by_cases hw : (app.words && st.in_word) = true <;>
    by_cases hm : app.max_line_length = true <;>
    by_cases h0 : 0 < st.current_line_length <;>
    simp [hw, hm, h0] <;>
    · have hc : st.current_line_length = 0 := by omega
      simp [hc]

/-- The engine on a single chunk, field by field. -/
theorem runEngine_fields (app : Selector) (data : List Nat) :
    runEngine app [data] =
      { bytes := if app.bytes then data.length else 0
        chars := if app.chars then data.countP (fun b => b != 0) else 0
        words := if app.words then
            (wordMachine false data).2 + (if (wordMachine false data).1 then 1 else 0)
          else 0
        lines := if app.lines then data.countP (fun b => b == 10) else 0
        max_line_length := if app.max_line_length then
            max (mllFold 0 0 data).1 (mllFold 0 0 data).2
          else 0 } := by
  have h1 : runEngine app [data] = finalize app (data.foldl (stepByte app) initState) := by
    unfold runEngine
    rw [show List.foldl (unrolledChunk app) initState [data] =
        unrolledChunk app initState data from rfl, unrolledChunk_eq]
  rw [h1, foldl_stepByte_eq, finalize_fields]
  unfold initState
  ext
  · by_cases hb : app.bytes = true <;> simp [hb]
  · by_cases hc : app.chars = true <;> simp [hc]
  · by_cases hw : app.words = true <;>
      by_cases hiw : (wordMachine false data).1 = true <;> simp [hw, hiw]
  · by_cases hl : app.lines = true <;> simp [hl]
  · by_cases hm : app.max_line_length = true <;> simp [hm]

/-!  Bridges between the single-metric machines and the specification
functions. -/

theorem countRuns_cons_of_ws {b : Nat} (r : List Nat) (hb : IS_WHITESPACE b = true) :
    countRuns (b :: r) = countRuns r := by
  cases r with
  | nil => simp [countRuns, hb]
  | cons b2 r2 => simp [countRuns, hb]

theorem countRuns_cons_congr {b b' : Nat} (r : List Nat)
    (hb : IS_WHITESPACE b = false) (hb' : IS_WHITESPACE b' = false) :
    countRuns (b :: r) = countRuns (b' :: r) := by
  cases r with
  | nil => simp [countRuns, hb, hb']
  | cons b2 r2 => simp [countRuns, hb, hb']

/-- The word machine plus the end-of-stream flush counts exactly the
maximal non-whitespace runs; starting inside a word is the same as
starting after a phantom non-whitespace byte (97 = `'a'`). -/
theorem wordMachine_countRuns (l : List Nat) :
    ((wordMachine false l).2 + (if (wordMachine false l).1 then 1 else 0) = countRuns l)
      ∧ ((wordMachine true l).2 + (if (wordMachine true l).1 then 1 else 0) =
        countRuns (97 :: l)) := by
  induction l with
  | nil => simp [wordMachine, countRuns, IS_WHITESPACE]
  | cons b r ih =>
    obtain ⟨ihF, ihT⟩ := ih
    have h97 : IS_WHITESPACE 97 = false := by decide
    by_cases hb : IS_WHITESPACE b = true
    · constructor
      · rw [show wordMachine false (b :: r) = wordMachine false r from by
            simp [wordMachine, hb], ihF, countRuns_cons_of_ws r hb]
      · rw [show wordMachine true (b :: r) =
            ((wordMachine false r).1, (wordMachine false r).2 + 1) from by
            simp [wordMachine, hb]]
        rw [show countRuns (97 :: b :: r) = 1 + countRuns (b :: r) from by
            simp [countRuns, hb, h97], countRuns_cons_of_ws r hb]
        simp only []
        omega
    · have hb' : IS_WHITESPACE b = false := by
        cases h : IS_WHITESPACE b <;> simp_all
      constructor
      · rw [show wordMachine false (b :: r) = wordMachine true r from by
            simp [wordMachine, hb'], ihT, countRuns_cons_congr r hb' h97]
      · rw [show wordMachine true (b :: r) = wordMachine true r from by
            simp [wordMachine, hb'], ihT]
        rw [show countRuns (97 :: b :: r) = countRuns (b :: r) from by
            simp [countRuns, hb', h97], countRuns_cons_congr r hb' h97]

theorem lineLengths_shape (l : List Nat) : ∃ x xs, lineLengths l = x :: xs := by
  cases l with
  | nil => exact ⟨0, [], rfl⟩
  | cons b r =>
    by_cases hb : (b == 10) = true
    · exact ⟨0, lineLengths r, by simp [lineLengths, hb]⟩
    · obtain ⟨x, xs, hx⟩ : ∃ x xs, lineLengths r = x :: xs := by
        cases hr : lineLengths r with
        | nil =>
          exfalso
          revert hr
          induction r with
          | nil => simp [lineLengths]
          | cons c s ihr =>
            by_cases hc : (c == 10) = true
            · simp [lineLengths, hc]
            · simp only [lineLengths, hc, Bool.false_eq_true, if_false]
              cases hs : lineLengths s <;> simp
        | cons x xs => exact ⟨x, xs, rfl⟩
      exact ⟨x + 1, xs, by simp [lineLengths, hb, hx]⟩

/-- The line-length machine plus the end-of-stream flush computes the
maximum segment length, with the carried-over partial length folded into
the first segment. -/
theorem mllFold_lineLengths (l : List Nat) : ∀ mll cll : Nat,
    max (mllFold mll cll l).1 (mllFold mll cll l).2 =
      max mll ((addFirst cll (lineLengths l)).foldr max 0) := by
  induction l with
  | nil => intro mll cll; simp [mllFold, lineLengths, addFirst]
  | cons b r ih =>
    intro mll cll
    obtain ⟨x, xs, hx⟩ := lineLengths_shape r
    by_cases hb : (b == 10) = true
    · rw [show mllFold mll cll (b :: r) = mllFold (max mll cll) 0 r from by
          simp [mllFold, hb], ih]
      rw [show lineLengths (b :: r) = 0 :: lineLengths r from by simp [lineLengths, hb]]
      rw [hx]
      show max (max mll cll) (List.foldr max 0 ((0 + x) :: xs)) =
        max mll (List.foldr max 0 ((cll + 0) :: x :: xs))
      simp only [Nat.zero_add, Nat.add_zero, List.foldr_cons]
      rw [max_assoc]
    · rw [show mllFold mll cll (b :: r) = mllFold mll (cll + 1) r from by
          simp [mllFold, hb], ih]
      rw [show lineLengths (b :: r) = (x + 1) :: xs from by simp [lineLengths, hb, hx]]
      rw [hx]
      show max mll (List.foldr max 0 (((cll + 1) + x) :: xs)) =
        max mll (List.foldr max 0 ((cll + (x + 1)) :: xs))
      have harith : (cll + 1) + x = cll + (x + 1) := by omega
      rw [harith]

/-!  The claims. -/

/-- C1: for every MetricSelector and any two ways of splitting an input
byte sequence into consecutive chunks (one byte at a time,
whole-input-at-once, or any other partition), the Counting Engine produces
identical Counts for all selected metrics, because `in_word` and
`current_line_length` carry across chunk boundaries. -/
theorem chunking_invariance (app : Selector) (css dss : List (List Nat))
    (h : css.flatten = dss.flatten) :
    runEngine app css = runEngine app dss := by
  unfold runEngine
  rw [foldChunks_eq_join, foldChunks_eq_join, h]

/-- Witness for C1, on the word "hello" split exactly across a chunk
boundary ("hel" ++ "lo"): the chunked run equals the one-chunk run, and
the word is counted exactly once. -/
theorem chunking_invariance_witness :
    ([[104, 101, 108], [108, 111]] : List (List Nat)).flatten =
        ([[104, 101, 108, 108, 111]] : List (List Nat)).flatten
      ∧ runEngine allFlags [[104, 101, 108], [108, 111]] =
        runEngine allFlags [[104, 101, 108, 108, 111]]
      ∧ (runEngine allFlags [[104, 101, 108], [108, 111]]).words = 1 :=
  ⟨by decide, chunking_invariance allFlags _ _ (by decide), by decide⟩

/-- C2: with all five metrics selected the engine returns bytes = length,
chars = number of nonzero bytes, lines = number of 0x0A bytes, words =
number of maximal non-whitespace runs, and max_line_length = the longest
run of non-line-feed bytes between line feeds (a nonempty unterminated
trailing line included); in particular "hello world\n" yields
bytes=12, chars=12, words=2, lines=1, max_line_length=11. -/
theorem engine_counts_correct :
    (∀ data : List Nat,
      runEngine allFlags [data] =
        { bytes := data.length
          chars := data.countP (fun b => b != 0)
          words := countRuns data
          lines := data.countP (fun b => b == 10)
          max_line_length := maxLineSpec data })
      ∧ runEngine allFlags [[104, 101, 108, 108, 111, 32, 119, 111, 114, 108, 100, 10]] =
        { bytes := 12, chars := 12, words := 2, lines := 1, max_line_length := 11 } := by
  constructor
  · intro data
    rw [runEngine_fields]
    ext
    · simp [allFlags]
    · simp [allFlags]
    · simp only [allFlags]
      simpa using (wordMachine_countRuns data).1
    · simp [allFlags]
    · simp only [allFlags]
      have h := mllFold_lineLengths data 0 0
      obtain ⟨x, xs, hx⟩ := lineLengths_shape data
      rw [hx] at h
      simp only [addFirst, Nat.zero_add] at h
      simp only [if_pos rfl, h, maxLineSpec, hx, Nat.zero_max]
      simp
  · decide

/-- C3: the 8-byte unrolled loop plus the tail loop computes, from any
starting engine state, exactly the same state as the one-byte-at-a-time
scan of the same bytes; in particular one unrolled group of eight never
uses a stale `in_word` or `current_line_length` from before an earlier
byte of the group was processed. -/
theorem unrolled_loop_refines_byte_scan :
    (∀ (app : Selector) (st : EState) (chunk : List Nat),
        unrolledChunk app st chunk = chunk.foldl (stepByte app) st)
      ∧ ∀ (app : Selector) (st : EState) (b0 b1 b2 b3 b4 b5 b6 b7 : Nat),
        step8 app st b0 b1 b2 b3 b4 b5 b6 b7 =
          [b0, b1, b2, b3, b4, b5, b6, b7].foldl (stepByte app) st :=
  ⟨unrolledChunk_eq, step8_eq_foldl⟩

/-- C6: `Counts::add` (sum of bytes, chars, words, lines; maximum of
max_line_length) is associative and commutative in every field. -/
theorem counts_add_assoc_comm :
    (∀ a b c : Counts, (a.add b).add c = a.add (b.add c))
      ∧ ∀ a b : Counts, a.add b = b.add a := by
  constructor
  · intro a b c
    ext <;> simp [Counts.add] <;> omega
  · intro a b
    ext <;> simp [Counts.add] <;> omega

/-- C7: the rendered field list contains exactly the metrics that are both
selected and nonzero, in the fixed order lines, words, chars, bytes,
max-line-length, each as a labeled field; a selected metric whose value is
zero is omitted, so an empty file with all metrics selected renders no
fields at all. -/
theorem append_counts_formatting :
    (∀ (r : String) (counts : Counts) (app : Selector),
        append_counts r counts app =
          (metricFields app counts).foldl (fun a s => a ++ s) r)
      ∧ metricFields allFlags ⟨0, 0, 0, 0, 0⟩ = []
      ∧ append_counts "" ⟨0, 0, 0, 0, 0⟩ allFlags = "" := by
  refine ⟨?_, rfl, rfl⟩
  intro r counts app
  unfold append_counts metricFields
  by_cases h1 : (app.lines && decide (0 < counts.lines)) = true <;>
    by_cases h2 : (app.words && decide (0 < counts.words)) = true <;>
    by_cases h3 : (app.chars && decide (0 < counts.chars)) = true <;>
    by_cases h4 : (app.bytes && decide (0 < counts.bytes)) = true <;>
    by_cases h5 : (app.max_line_length && decide (0 < counts.max_line_length)) = true <;>
    simp [h1, h2, h3, h4, h5, String.append_assoc]

/-- C4: when the selector requests bytes only and the size metadata is
available and accurate, `process_file` answers `bytes = size` straight from
the metadata, which is exactly what the full-read slow path would also
produce; when metadata is unavailable it falls back to the full read. -/
theorem bytes_fast_path_equiv (app : Selector) (data : List Nat)
    (hb : app.bytes = true) (hl : app.lines = false) (hw : app.words = false)
    (hc : app.chars = false) (hm : app.max_line_length = false) :
    (∀ n : Nat, process_file app (some data) (some n) =
        some { Counts.default with bytes := n })
      ∧ fullReadCounts app data (some data.length) =
        { Counts.default with bytes := data.length }
      ∧ process_file app (some data) none = some (fullReadCounts app data none) := by
  have hfull : fullReadCounts app data (some data.length) =
      { Counts.default with bytes := data.length } := by
    unfold fullReadCounts
    rw [runEngine_fields]
    simp only [hb, hl, hw, hc, hm, if_pos rfl, Bool.false_eq_true, if_false]
    by_cases hz : data.length = 0 <;> simp [hz, Counts.default]
  refine ⟨?_, hfull, ?_⟩
  · intro n
    unfold process_file
    simp [hb, hl, hw, hc, hm]
  · unfold process_file
    simp [hb, hl, hw, hc, hm]

/-- Witness for C4 at the selector {bytes} and the three-byte file
"abc" with accurate metadata. -/
theorem bytes_fast_path_equiv_witness :
    (⟨true, false, false, false, false⟩ : Selector).bytes = true
      ∧ (⟨true, false, false, false, false⟩ : Selector).lines = false
      ∧ ((∀ n : Nat, process_file ⟨true, false, false, false, false⟩ (some [97, 98, 99]) (some n) =
            some { Counts.default with bytes := n })
          ∧ fullReadCounts ⟨true, false, false, false, false⟩ [97, 98, 99] (some 3) =
            { Counts.default with bytes := 3 }
          ∧ process_file ⟨true, false, false, false, false⟩ (some [97, 98, 99]) none =
            some (fullReadCounts ⟨true, false, false, false, false⟩ [97, 98, 99] none)) :=
  ⟨rfl, rfl, by
    have h := bytes_fast_path_equiv ⟨true, false, false, false, false⟩ [97, 98, 99]
      rfl rfl rfl rfl rfl
    simpa using h⟩

/-- C5 counterexample: the claim quantifies over every full read performed
because metrics other than bytes were requested, without requiring the
byte metric itself to be selected.  With only lines selected, an empty
read, and metadata reporting size 5, the code leaves the returned byte
count at 0 instead of substituting the metadata size 5: the fallback at
src/src/main.rs line 332 is guarded by `app.bytes`. -/
theorem bytes_fallback_requires_flag_cex :
    process_file ⟨false, false, true, false, false⟩ (some ([] : List Nat)) (some 5) =
        some { bytes := 0, chars := 0, words := 0, lines := 0, max_line_length := 0 }
      ∧ (0 : Nat) ≠ 5 := by
  constructor
  · decide
  · decide

/-- C5 as amended: whenever the byte metric is selected together with at
least one other metric (so a full read is performed), the returned byte
count is the metadata-reported size if the read yielded zero bytes, and
the counted value unchanged otherwise. -/
theorem bytes_fallback_amended (app : Selector) (data : List Nat) (n : Nat)
    (hb : app.bytes = true)
    (hother : app.lines = true ∨ app.words = true ∨ app.chars = true ∨
      app.max_line_length = true) :
    (process_file app (some data) (some n)).map Counts.bytes =
      some (if data.length = 0 then n else data.length) := by
  have hcond : (app.bytes && !app.lines && !app.words && !app.chars &&
      !app.max_line_length) = false := by
    rcases hother with h | h | h | h <;> simp [h]
  unfold process_file
  rw [hcond]
  simp only [Bool.false_eq_true, if_false, Option.map_some]
  unfold fullReadCounts
  rw [runEngine_fields]
  by_cases hz : data.length = 0 <;> simp [hb, hz]

/-- Witness for C5 as amended: lines+bytes selected; an empty read with
metadata 7 reports 7 bytes. -/
theorem bytes_fallback_amended_witness :
    (⟨true, false, true, false, false⟩ : Selector).bytes = true
      ∧ (⟨true, false, true, false, false⟩ : Selector).lines = true
      ∧ (process_file ⟨true, false, true, false, false⟩ (some ([] : List Nat))
          (some 7)).map Counts.bytes = some (if ([] : List Nat).length = 0 then 7 else ([] : List Nat).length) :=
  ⟨rfl, rfl, bytes_fallback_amended ⟨true, false, true, false, false⟩ [] 7 rfl (Or.inl rfl)⟩

/-!  Completion-order independence of the indexed result collection. -/

theorem foldSet_get? {α : Type} (v : Nat → Option α) (sched : List Nat) :
    ∀ (buf : List (Option α)) (j : Nat),
      (sched.foldl (fun b i => b.set i (v i)) buf).get? j =
        if j ∈ sched then (if j < buf.length then some (v j) else none)
        else buf.get? j := by
  induction sched with
  | nil => intro buf j; simp
  | cons i s ih =>
    intro buf j
    rw [List.foldl_cons, ih, List.length_set]
    by_cases hjs : j ∈ s
    · simp [hjs, List.mem_cons]
    · by_cases hij : i = j
      · subst hij
        by_cases hlt : i < buf.length
        · simp [hjs, List.mem_cons, hlt, List.get?_set_eq_of_lt _ hlt]
        · have hnone : (buf.set i (v i)).get? i = none :=
            List.get?_eq_none.mpr (by rw [List.length_set]; omega)
          simp [hjs, List.mem_cons, hlt, hnone] <;> omega
      · have hji : ¬j = i := fun hh => hij hh.symm
        simp [List.mem_cons, hji, hjs, List.getElem?_set_ne hij]

theorem collect_buffer_eq {α : Type} (v : Nat → Option α) (n : Nat) (sched : List Nat)
    (hmem : ∀ j, j < n → j ∈ sched) :
    sched.foldl (fun b i => b.set i (v i)) (List.replicate n (none : Option α)) =
      (List.range n).map v := by
  rw [List.ext_get?_iff]
  intro j
  rw [foldSet_get?, List.length_replicate]
  by_cases hj : j < n
  · rw [if_pos (hmem j hj), if_pos hj, List.get?_map, List.get?_range hj]
    rfl
  · have h1 : ((List.range n).map v).get? j = none :=
      List.get?_eq_none.mpr (by simp; omega)
    have h2 : (List.replicate n (none : Option α)).get? j = none :=
      List.get?_eq_none.mpr (by simp; omega)
    rw [h1]
    by_cases hjs : j ∈ sched <;> simp [hjs, hj, h2] <;> omega

theorem rangeMap_filterMap {α β : Type} (f : α → Option β) :
    ∀ tasks : List α,
      ((List.range tasks.length).map (fun i => (tasks.get? i).bind f)).filterMap id =
        tasks.filterMap f := by
  intro tasks
  induction tasks with
  | nil => rfl
  | cons t ts ih =>
    rw [List.length_cons, List.range_succ_eq_map, List.map_cons, List.map_map]
    have hcomp : ((fun i => (((t :: ts).get? i).bind f)) ∘ Nat.succ) =
        fun i => ((ts.get? i).bind f) := by
      funext i
      rfl
    rw [hcomp]
    rw [List.filterMap_cons]
    cases hft : f t with
    | none => simpa [hft] using ih
    | some b => simpa [hft] using ih

/-- C8: the result collection is an order-preserving parallel map.  For
any order `sched` in which the parallel workers complete the indexed
tasks, writing each optional result into its own slot of a pre-sized
buffer and reading the buffer back in index order yields exactly the
in-input-order sequence of per-task results — the output is independent of
completion order, and its Nth element comes from the Nth input task that
produced a result. -/
theorem collect_order_preserving (app : Selector) (verbose stderrOk : Bool)
    (tasks : List FileTask) (sched : List Nat)
    (hperm : sched.Perm (List.range tasks.length)) :
    collectWithSchedule app verbose stderrOk tasks sched =
      runResults app verbose stderrOk tasks := by
  unfold collectWithSchedule runResults
  rw [collect_buffer_eq (fun i => (tasks.get? i).bind (processTask app verbose stderrOk))
    tasks.length sched
    (fun j hj => hperm.mem_iff.mpr (List.mem_range.mpr hj))]
  exact rangeMap_filterMap (processTask app verbose stderrOk) tasks

/-- Witness for C8: two tasks completed in reversed order produce the same
ordered output as the sequential in-order map. -/
theorem collect_order_preserving_witness :
    ([1, 0] : List Nat).Perm (List.range 2)
      ∧ collectWithSchedule allFlags false true
          [⟨"a", some [97], some 1⟩, ⟨"b", some [98], some 1⟩] [1, 0] =
        runResults allFlags false true
          [⟨"a", some [97], some 1⟩, ⟨"b", some [98], some 1⟩] :=
  ⟨by decide, collect_order_preserving allFlags false true _ [1, 0]
    (by simpa using by decide : ([1, 0] : List Nat).Perm (List.range 2))⟩

/-- A task whose file cannot be opened or read produces no result in
either branch of the dispatcher. -/
theorem processTask_contents_none (app : Selector) (verbose stderrOk : Bool)
    (t : FileTask) (h : t.contents = none) :
    processTask app verbose stderrOk t = none := by
  unfold processTask processLarge
  rw [h]
  rcases hm : t.metadata with _ | n
  · simp [process_file]
  · by_cases hn : n < 512 * 1024 <;> simp [hn, process_file]

/-- C9: a task whose open or read fails is silently dropped: the result
list over the remaining tasks is unchanged, so it produces no output line,
contributes nothing to the total or the file count, and the remaining
tasks are still processed. -/
theorem failed_task_dropped (app : Selector) (verbose stderrOk : Bool)
    (l1 l2 : List FileTask) (t : FileTask) (h : t.contents = none) :
    runResults app verbose stderrOk (l1 ++ t :: l2) =
        runResults app verbose stderrOk (l1 ++ l2)
      ∧ totalOf (runResults app verbose stderrOk (l1 ++ t :: l2)) =
        totalOf (runResults app verbose stderrOk (l1 ++ l2))
      ∧ (runResults app verbose stderrOk (l1 ++ t :: l2)).length =
        (runResults app verbose stderrOk (l1 ++ l2)).length := by
  have h1 : runResults app verbose stderrOk (l1 ++ t :: l2) =
      runResults app verbose stderrOk (l1 ++ l2) := by
    unfold runResults
    rw [List.filterMap_append, List.filterMap_append, List.filterMap_cons,
      processTask_contents_none app verbose stderrOk t h]
  exact ⟨h1, by rw [h1], by rw [h1]⟩

/-- Witness for C9: an unreadable task between two readable ones drops out
of the result list. -/
theorem failed_task_dropped_witness :
    (⟨"bad", none, some 9⟩ : FileTask).contents = none
      ∧ runResults allFlags false true
          [⟨"a", some [97], some 1⟩, ⟨"bad", none, some 9⟩, ⟨"b", some [98], some 1⟩] =
        runResults allFlags false true
          [⟨"a", some [97], some 1⟩, ⟨"b", some [98], some 1⟩] :=
  ⟨rfl, (failed_task_dropped allFlags false true [⟨"a", some [97], some 1⟩]
    [⟨"b", some [98], some 1⟩] ⟨"bad", none, some 9⟩ rfl).1⟩

/-- C10: in verbose mode, a task on the large-or-unknown-size path whose
diagnostic write to the error stream fails is dropped exactly as if the
file were unreadable, even though its bytes were never read. -/
theorem verbose_stderr_failure_drops_task (app : Selector) (t : FileTask)
    (hbig : t.metadata = none ∨ ∃ n, t.metadata = some n ∧ 512 * 1024 ≤ n) :
    processTask app true false t = none
      ∧ processTask app true false t =
        processTask app true false { t with contents := none } := by
  have hnone : processTask app true false t = none := by
    unfold processTask processLarge
    rcases hbig with h | ⟨n, h, hn⟩ <;> rw [h]
    · rfl
    · simp [Nat.not_lt.mpr hn]
  refine ⟨hnone, ?_⟩
  rw [hnone, processTask_contents_none app true false _ rfl]

/-- Witness for C10: a readable one-byte file of unknown size, verbose
mode, failing error stream: the task yields nothing. -/
theorem verbose_stderr_failure_drops_task_witness :
    ((⟨"x", some [65], none⟩ : FileTask).metadata = none
        ∨ ∃ n, (⟨"x", some [65], none⟩ : FileTask).metadata = some n ∧ 512 * 1024 ≤ n)
      ∧ processTask allFlags true false ⟨"x", some [65], none⟩ = none :=
  ⟨Or.inl rfl,
    (verbose_stderr_failure_drops_task allFlags ⟨"x", some [65], none⟩ (Or.inl rfl)).1⟩

end Ripwc
